import Mathlib

/-!
Shallow embedding of the card-game state engine from
`src/assets/Scripts/models/CardData.ts`, `src/assets/Scripts/models/GameModel.ts`
and the decision logic of `src/assets/Scripts/controllers/GameController.ts`.

Modelling conventions:
* JS numbers used as card faces, suits and 2D coordinates are modelled as `Int`
  (the program only ever compares them and takes an absolute difference).
* The JS `Map<number, CardData>` (`GameModel._cards`) is modelled as an
  insertion-ordered association list of `CardData` keyed by the `id` field:
  `Map.get` is `List.find?` on the id, `Map.set` replaces in place or appends,
  exactly the JS iteration-order semantics.  A JS `Map` cannot hold two entries
  with one key, so ledger states with duplicate ids are ruled out by the
  `NodupIds` predicate where a proof needs it.
* In-place mutation of a card object (`card.area = ...`) becomes a `List.map`
  that rewrites the entry with that id.
* The `_history` array used as a stack (`push`/`pop` at the end) is modelled
  with the most recent record at the HEAD of a list.
* A JS statement that throws a `TypeError` (e.g. `undefined.forEach`, or
  reading `.face` of `undefined`) is modelled by an explicit failure value:
  `loadData` returns a `Bool` flag that is `false` when the corresponding JS
  code raises, and `isMatch` returns `Option Bool` with `none` for a raise.
-/

/-- A 2D position `(x, y)` as used by `CardData.position`. -/
structure Vec2 where
  x : Int
  y : Int
deriving DecidableEq, Repr

/-- Card record `CardData` from `src/assets/Scripts/models/CardData.ts`: id, face (0..12),
suit (0..3), current area string (`"main"`, `"stock"`, `"discard"`), position. -/
structure CardData where
  id : Nat
  face : Int
  suit : Int
  area : String
  position : Vec2
deriving DecidableEq, Repr

/-- One record of `GameModel._history`: the card id together with the area and
position the card had immediately before a move. -/
structure HistoryEntry where
  cardId : Nat
  oldArea : String
  oldPos : Vec2
deriving DecidableEq, Repr

/-- The state of `GameModel`: the card map (insertion-ordered association list)
and the undo stack (most recent record first). -/
structure GameModel where
  cards : List CardData
  history : List HistoryEntry
deriving DecidableEq, Repr

/-- Model of `Map.get` on `_cards`: the unique entry whose `id` field is `cardId`. -/
def cardsGet (cards : List CardData) (cardId : Nat) : Option CardData :=
  cards.find? (fun c => c.id = cardId)

/-- Model of `Map.set` on `_cards`: replace the entry with the same id in place
(JS `Map.set` keeps the original insertion position), else append. -/
def cardsSet (cards : List CardData) (c : CardData) : List CardData :=
  if cards.any (fun x => x.id = c.id) then
    cards.map (fun x => if x.id = c.id then c else x)
  else
    cards ++ [c]

/-- Embeds `GameModel.getCardById`. -/
def getCardById (m : GameModel) (cardId : Nat) : Option CardData :=
  cardsGet m.cards cardId

/-- One entry of the layout JSON (`jsonData.Playfield` / `jsonData.Stack`). -/
structure LayoutEntry where
  CardFace : Int
  CardSuit : Int
  Position : Vec2
deriving DecidableEq, Repr

/-- The layout JSON consumed by `GameModel.loadData`.  Each list is `Option`al:
`none` models the field being absent from the JSON object, in which case the
JS `jsonData.Playfield.forEach` / `jsonData.Stack.forEach` raises a
`TypeError` (`undefined` has no `forEach`). -/
structure LayoutData where
  Playfield : Option (List LayoutEntry)
  Stack : Option (List LayoutEntry)
deriving DecidableEq, Repr

/-- The `jsonData.Playfield.forEach` loop of `loadData`: every entry becomes a
card in area `"main"` with the next counter value as id. -/
def loadMain (cards : List CardData) (ctr : Nat) :
    List LayoutEntry → List CardData × Nat
  | [] => (cards, ctr)
  | e :: rest =>
      loadMain (cardsSet cards ⟨ctr, e.CardFace, e.CardSuit, "main", e.Position⟩)
        (ctr + 1) rest

/-- The `jsonData.Stack.forEach` loop of `loadData`: the entry at index
`total - 1` (the last one) becomes area `"discard"`, all others `"stock"`. -/
def loadStack (cards : List CardData) (ctr : Nat) (idx total : Nat) :
    List LayoutEntry → List CardData × Nat
  | [] => (cards, ctr)
  | e :: rest =>
      loadStack
        (cardsSet cards
          ⟨ctr, e.CardFace, e.CardSuit,
            if idx = total - 1 then "discard" else "stock", e.Position⟩)
        (ctr + 1) (idx + 1) total rest

/-- Embeds `GameModel.loadData`.  The returned `Bool` is `true` when the JS method ran
to completion and `false` when it raised a `TypeError` because a required list
was absent; the returned model holds whatever had been inserted into `_cards`
up to that point (`loadData` never clears `_cards` or `_history`). -/
def loadData (m : GameModel) (jsonData : LayoutData) : GameModel × Bool :=
  match jsonData.Playfield with
  | none => (m, false)
  | some pf =>
      let r1 := loadMain m.cards 0 pf
      match jsonData.Stack with
      | none => ({ m with cards := r1.1 }, false)
      | some st =>
          ({ m with cards := (loadStack r1.1 r1.2 0 st.length st).1 }, true)

/-- Embeds `GameModel.moveCard`: if the card exists, push its pre-move area/position
onto `_history` (the pushed `oldPos` is a fresh `{x, y}` copy) and overwrite
its area and position; return the success flag. -/
def moveCard (m : GameModel) (cardId : Nat) (targetArea : String)
    (targetPos : Vec2) : GameModel × Bool :=
  match cardsGet m.cards cardId with
  | none => (m, false)
  | some card =>
      ({ cards :=
           m.cards.map fun x =>
             if x.id = cardId then
               { x with area := targetArea, position := targetPos }
             else x,
         history :=
           ⟨card.id, card.area, ⟨card.position.x, card.position.y⟩⟩
             :: m.history },
       true)

/-- Embeds `GameModel.undo`: pop the most recent history record; if its card still
exists, restore the card's area and position; return the record (or `null`,
modelled `none`, when the history is empty). -/
def undo (m : GameModel) : GameModel × Option HistoryEntry :=
  match m.history with
  | [] => (m, none)
  | last :: rest =>
      match cardsGet m.cards last.cardId with
      | none => ({ m with history := rest }, some last)
      | some _ =>
          ({ cards :=
               m.cards.map fun x =>
                 if x.id = last.cardId then
                   { x with area := last.oldArea, position := last.oldPos }
                 else x,
             history := rest }, some last)

/-- Embeds `GameController.isMatch`.  Here `discardChildren` is the list of card ids of the
discard pile's child nodes in stacking order (last = top), supplied by the
presentation layer.  Result `none` models the JS `TypeError` raised when the
top child's id does not resolve in the model (`getCardById(...).face` on
`undefined`); otherwise `some` of the boolean the method returns. -/
def isMatch (m : GameModel) (discardChildren : List Nat) (cardId : Nat) :
    Option Bool :=
  match discardChildren.getLast? with
  | none => some false
  | some topId =>
      match getCardById m topId with
      | none => none
      | some top =>
          match getCardById m cardId with
          | none => some false
          | some current => some (decide ((current.face - top.face).natAbs = 1))

/-- Which pile node is the clicked card's parent (`cardNode.parent`) —
`other` covers a parent that is none of the three pile nodes. -/
inductive Pile where
  | main
  | stock
  | discard
  | other
deriving DecidableEq, Repr

/-- Embeds `GameController._moveCardToDiscard`: move the card into `'discard'` at
position `(0, 0)` through the model (view updates are out of scope). -/
def moveCardToDiscard (m : GameModel) (cardId : Nat) : GameModel :=
  (moveCard m cardId "discard" ⟨0, 0⟩).1

/-- The model-state effect of `GameController._onCardClick`.  `occluded` is the
result of the presentation-geometry test `_isCovered` (an external predicate),
`parent` is the pile node the card's view node sits under, and
`discardChildren` is the discard pile's child id list used by `isMatch`.
A branch that performs no move (or in which `isMatch` raises before any
mutation) leaves the model unchanged. -/
def onCardClick (m : GameModel) (cardId : Nat) (occluded : Bool) (parent : Pile)
    (discardChildren : List Nat) : GameModel :=
  if occluded then m
  else
    match parent with
    | Pile.discard => m
    | Pile.stock => moveCardToDiscard m cardId
    | Pile.main =>
        match isMatch m discardChildren cardId with
        | some true => moveCardToDiscard m cardId
        | _ => m
    | Pile.other => m

/-- A ledger state a JS `Map` can actually represent: the keys (card ids) are
pairwise distinct. -/
def NodupIds (m : GameModel) : Prop :=
  (m.cards.map fun c => c.id).Nodup

instance (m : GameModel) : Decidable (NodupIds m) := by
  unfold NodupIds; infer_instance

/-- The empty model a fresh `GameModel` instance starts from. -/
def emptyModel : GameModel := ⟨[], []⟩

/-- Runs `loadData` on a fresh model, the configuration found in `stage.json`
carrying both lists. -/
def loadFresh (pf st : List LayoutEntry) : GameModel × Bool :=
  loadData emptyModel ⟨some pf, some st⟩

/-- A small concrete session used by witnesses: the layout of §8's example. -/
def demoPf : List LayoutEntry := [⟨3, 0, ⟨0, 0⟩⟩]

/-- Stack list of the concrete demo layout. -/
def demoSt : List LayoutEntry := [⟨7, 1, ⟨1, 0⟩⟩, ⟨8, 2, ⟨2, 0⟩⟩]

/-- The demo model after loading the demo layout. -/
def demoModel : GameModel := (loadFresh demoPf demoSt).1

theorem cardsGet_id (l : List CardData) (j : Nat) (c : CardData)
    (h : cardsGet l j = some c) : c.id = j := by
  have := List.find?_some h
  simpa using this

theorem cardsGet_mem (l : List CardData) (j : Nat) (c : CardData)
    (h : cardsGet l j = some c) : c ∈ l :=
  List.mem_of_find?_eq_some h

theorem cardsGet_map_pres (g : CardData → CardData)
    (hg : ∀ c, (g c).id = c.id) (l : List CardData) (j : Nat) :
    cardsGet (l.map g) j = (cardsGet l j).map g := by
  induction l with
  | nil => rfl
  | cons x xs ih =>
      unfold cardsGet at *
      by_cases hx : x.id = j
      · simp [List.find?_cons, hg, hx]
      · simp [List.find?_cons, hg, hx, ih]

theorem map_ids_pres (g : CardData → CardData)
    (hg : ∀ c, (g c).id = c.id) (l : List CardData) :
    (l.map g).map (fun c => c.id) = l.map (fun c => c.id) := by
  rw [List.map_map]
  exact List.map_congr_left (fun a _ => hg a)

/-- C5: `moveCard` on a card id absent from the ledger returns `false` and is
an atomic no-op: the returned model is the input model, so no history record
is pushed and no card is mutated. -/
theorem moveCard_missing_id_noop (m : GameModel) (cardId : Nat)
    (targetArea : String) (targetPos : Vec2)
    (h : cardsGet m.cards cardId = none) :
    moveCard m cardId targetArea targetPos = (m, false) := by
  unfold moveCard
  rw [h]

/-- C5 witness: in the demo session, id 99 does not exist and the move is a
no-op returning `false`. -/
theorem moveCard_missing_id_noop_witness :
    cardsGet demoModel.cards 99 = none ∧
    moveCard demoModel 99 "discard" ⟨5, 5⟩ = (demoModel, false) :=
  ⟨by decide, moveCard_missing_id_noop demoModel 99 "discard" ⟨5, 5⟩ (by decide)⟩

/-- C6: `undo` on an empty history returns `none` ("nothing to undo") and
leaves the model unchanged, so a repeated call does exactly the same. -/
theorem undo_empty_noop (m : GameModel) (h : m.history = []) :
    undo m = (m, none) ∧ undo (undo m).1 = (m, none) := by
  have h1 : undo m = (m, none) := by
    unfold undo
    rw [h]
  exact ⟨h1, by rw [h1]; exact h1⟩

/-- C6 witness: undoing twice on the freshly loaded demo session (empty
history) is the identity, returning `none` both times. -/
theorem undo_empty_noop_witness :
    demoModel.history = [] ∧
    undo demoModel = (demoModel, none) ∧
    undo (undo demoModel).1 = (demoModel, none) :=
  ⟨by decide, undo_empty_noop demoModel (by decide)⟩

/-- C7: on a non-empty history, `undo` pops exactly the most recent record and
returns it; if the referenced card exists its area and position are set to the
record's captured old values (other cards untouched); if it does not exist the
record is still consumed and no card is mutated. -/
theorem undo_pops_and_restores (m : GameModel) (r : HistoryEntry)
    (rest : List HistoryEntry) (h : m.history = r :: rest) :
    (undo m).2 = some r ∧ (undo m).1.history = rest ∧
    (cardsGet m.cards r.cardId = none → (undo m).1.cards = m.cards) ∧
    (∀ c, cardsGet m.cards r.cardId = some c →
      cardsGet (undo m).1.cards r.cardId =
        some { c with area := r.oldArea, position := r.oldPos } ∧
      ∀ j, j ≠ r.cardId →
        cardsGet (undo m).1.cards j = cardsGet m.cards j) := by
  rcases hc : cardsGet m.cards r.cardId with _ | c
  · have hu : undo m = ({ m with history := rest }, some r) := by
      unfold undo
      rw [h]
      simp [hc]
    rw [hu]
    refine ⟨rfl, rfl, fun _ => rfl, fun c hcs => ?_⟩
    exact absurd hcs (by simp)
  · have hu : undo m =
        ({ cards :=
             m.cards.map fun x =>
               if x.id = r.cardId then
                 { x with area := r.oldArea, position := r.oldPos }
               else x,
           history := rest }, some r) := by
      unfold undo
      rw [h]
      simp [hc]
    rw [hu]
    refine ⟨rfl, rfl, fun hnone => ?_, fun c2 hc2 => ?_⟩
    · exact absurd hnone (by simp)
    · have hcc : c = c2 := by injection hc2
      subst hcc
      have hpres : ∀ x : CardData,
          ((if x.id = r.cardId then
              { x with area := r.oldArea, position := r.oldPos } else x) :
            CardData).id = x.id := by
        intro x
        by_cases hx : x.id = r.cardId <;> simp [hx]
      constructor
      · rw [cardsGet_map_pres _ hpres, hc]
        have hid : c.id = r.cardId := cardsGet_id _ _ _ hc
        simp [hid]
      · intro j hj
        rw [cardsGet_map_pres _ hpres]
        rcases hg : cardsGet m.cards j with _ | x
        · rfl
        · have hx : x.id = j := cardsGet_id _ _ _ hg
          simp [Option.map, hx, hj]

/-- The demo model after moving card 1 from the stock to the discard pile. -/
def movedModel : GameModel := (moveCard demoModel 1 "discard" ⟨0, 0⟩).1

/-- The history record produced by that move. -/
def demoRec : HistoryEntry := ⟨1, "stock", ⟨1, 0⟩⟩

/-- C7 witness: undoing the concrete move of card 1 pops its record, restores
card 1 to the stock at its old position, and touches no other card. -/
theorem undo_pops_and_restores_witness :
    movedModel.history = [demoRec] ∧
    ((undo movedModel).2 = some demoRec ∧
     (undo movedModel).1.history = [] ∧
     (cardsGet movedModel.cards demoRec.cardId = none →
       (undo movedModel).1.cards = movedModel.cards) ∧
     (∀ c, cardsGet movedModel.cards demoRec.cardId = some c →
       cardsGet (undo movedModel).1.cards demoRec.cardId =
         some { c with area := demoRec.oldArea, position := demoRec.oldPos } ∧
       ∀ j, j ≠ demoRec.cardId →
         cardsGet (undo movedModel).1.cards j = cardsGet movedModel.cards j)) :=
  ⟨by decide, undo_pops_and_restores movedModel demoRec [] (by decide)⟩

/-- C10: `moveCard` validates nothing about the target area: for any existing
card id, any target-area string whatsoever and any position, the move succeeds
and the card's area becomes exactly that string (and its position the target
position). -/
theorem moveCard_accepts_any_area (m : GameModel) (cardId : Nat)
    (targetArea : String) (targetPos : Vec2) (c : CardData)
    (h : cardsGet m.cards cardId = some c) :
    (moveCard m cardId targetArea targetPos).2 = true ∧
    cardsGet (moveCard m cardId targetArea targetPos).1.cards cardId =
      some { c with area := targetArea, position := targetPos } := by
  have hpres : ∀ x : CardData,
      ((if x.id = cardId then
          { x with area := targetArea, position := targetPos } else x) :
        CardData).id = x.id := by
    intro x
    by_cases hx : x.id = cardId <;> simp [hx]
  have hmv : moveCard m cardId targetArea targetPos =
      ({ cards :=
           m.cards.map fun x =>
             if x.id = cardId then
               { x with area := targetArea, position := targetPos }
             else x,
         history :=
           ⟨c.id, c.area, ⟨c.position.x, c.position.y⟩⟩ :: m.history },
       true) := by
    unfold moveCard
    rw [h]
  rw [hmv]
  refine ⟨rfl, ?_⟩
  rw [cardsGet_map_pres _ hpres, h]
  have hid : c.id = cardId := cardsGet_id _ _ _ h
  simp [hid]

/-- C10 witness: moving existing card 0 into the made-up zone `"attic"`
succeeds and records that exact string as the card's zone. -/
theorem moveCard_accepts_any_area_witness :
    cardsGet demoModel.cards 0 = some ⟨0, 3, 0, "main", ⟨0, 0⟩⟩ ∧
    ((moveCard demoModel 0 "attic" ⟨9, 9⟩).2 = true ∧
     cardsGet (moveCard demoModel 0 "attic" ⟨9, 9⟩).1.cards 0 =
       some ⟨0, 3, 0, "attic", ⟨9, 9⟩⟩) :=
  ⟨by decide,
   moveCard_accepts_any_area demoModel 0 "attic" ⟨9, 9⟩ ⟨0, 3, 0, "main", ⟨0, 0⟩⟩
     (by decide)⟩

/-- C4: the `_onCardClick` policy over the model state, with the occlusion
test supplied externally: an occluded card never moves; a card whose parent is
the discard pile never moves; a stock-pile card is moved into the discard zone
unconditionally (no face-matching check appears in that branch); a main-area
card is moved into the discard zone when `isMatch` returns `true` and is
rejected otherwise. -/
theorem onCardClick_policy (m : GameModel) (cardId : Nat) (occluded : Bool)
    (parent : Pile) (dc : List Nat) :
    (occluded = true → onCardClick m cardId occluded parent dc = m) ∧
    (occluded = false → parent = Pile.discard →
      onCardClick m cardId occluded parent dc = m) ∧
    (occluded = false → parent = Pile.stock →
      onCardClick m cardId occluded parent dc = moveCardToDiscard m cardId) ∧
    (occluded = false → parent = Pile.main →
      isMatch m dc cardId = some true →
      onCardClick m cardId occluded parent dc = moveCardToDiscard m cardId) ∧
    (occluded = false → parent = Pile.main →
      isMatch m dc cardId ≠ some true →
      onCardClick m cardId occluded parent dc = m) := by
  refine ⟨fun ho => ?_, fun ho hp => ?_, fun ho hp => ?_,
    fun ho hp hm => ?_, fun ho hp hm => ?_⟩ <;>
    subst ho <;> (try subst hp) <;> simp only [onCardClick, if_true, if_false]
  · rfl
  · rfl
  · rw [hm]; rfl
  · rcases hmv : isMatch m dc cardId with _ | b
    · rfl
    · cases b with
      | false => rfl
      | true => exact absurd hmv hm

/-- C4 witness: concrete instances of all five branches of the click policy in
the demo session (card 0 sits in main, card 1 in stock, card 2 in discard;
`isMatch` on card 0 against top card 2 is `false` since `|3 - 8| = 5`). -/
theorem onCardClick_policy_witness :
    onCardClick demoModel 0 true Pile.main [2] = demoModel ∧
    onCardClick demoModel 2 false Pile.discard [2] = demoModel ∧
    onCardClick demoModel 1 false Pile.stock [2] = moveCardToDiscard demoModel 1 ∧
    onCardClick demoModel 0 false Pile.main [2] = demoModel :=
  ⟨(onCardClick_policy demoModel 0 true Pile.main [2]).1 rfl,
   (onCardClick_policy demoModel 2 false Pile.discard [2]).2.1 rfl rfl,
   (onCardClick_policy demoModel 1 false Pile.stock [2]).2.2.1 rfl rfl,
   (onCardClick_policy demoModel 0 false Pile.main [2]).2.2.2.2 rfl rfl
     (by decide)⟩

/-- A four-card model exercising the match rule at faces 5, 6, 0 (A), 12 (K). -/
def facesModel : GameModel :=
  ⟨[⟨0, 5, 0, "main", ⟨0, 0⟩⟩, ⟨1, 6, 1, "discard", ⟨0, 0⟩⟩,
    ⟨2, 0, 2, "main", ⟨0, 0⟩⟩, ⟨3, 12, 3, "discard", ⟨0, 0⟩⟩], []⟩

/-- C3: assuming the top discard child (if any) resolves in the model (the JS
code reads its `.face` without a check and would otherwise raise), `isMatch`
returns `true` exactly when the discard pile is non-empty, the queried id
resolves, and the two faces differ by exactly 1 on the linear scale; it
returns `false` on an empty discard pile and on an unresolved id.  In
particular it is symmetric in the faces (5 against top 6 and 6 against top 5
both match) and never wraps around (0 (A) against 12 (K) never matches). -/
theorem isMatch_semantics (m : GameModel) (dc : List Nat) (cardId : Nat)
    (hres : dc.getLast?.all (fun t => (getCardById m t).isSome) = true) :
    (isMatch m dc cardId = some true ↔
      ∃ t top c, dc.getLast? = some t ∧ getCardById m t = some top ∧
        getCardById m cardId = some c ∧ (c.face - top.face).natAbs = 1) ∧
    (dc = [] → isMatch m dc cardId = some false) ∧
    (getCardById m cardId = none → isMatch m dc cardId = some false) ∧
    isMatch facesModel [1] 0 = some true ∧
    isMatch facesModel [0] 1 = some true ∧
    isMatch facesModel [3] 2 = some false ∧
    isMatch facesModel [2] 3 = some false := by
  refine ⟨?_, fun hdc => ?_, fun hc => ?_, by decide, by decide, by decide,
    by decide⟩
  · rcases hl : dc.getLast? with _ | t
    · unfold isMatch
      rw [hl]
      simp
    · rw [hl] at hres
      simp only [Option.all] at hres
      rcases ht : getCardById m t with _ | top
      · rw [ht] at hres
        simp at hres
      · rcases hc : getCardById m cardId with _ | c
        · unfold isMatch
          rw [hl]
          simp [ht, hc]
        · unfold isMatch
          rw [hl]
          simp only [ht, hc]
          constructor
          · intro h
            have habs : (c.face - top.face).natAbs = 1 :=
              of_decide_eq_true (Option.some_inj.mp h)
            exact ⟨t, top, c, rfl, ht, rfl, habs⟩
          · rintro ⟨t2, top2, c2, ht2, htop2, hc2, habs⟩
            have h1 : t2 = t := by injection ht2.symm
            subst h1
            rw [ht] at htop2
            have h2 : top2 = top := by injection htop2.symm
            subst h2
            have h3 : c2 = c := by injection hc2.symm
            subst h3
            simp [habs]
  · subst hdc
    rfl
  · unfold isMatch
    rcases hl : dc.getLast? with _ | t
    · rfl
    · rw [hl] at hres
      simp only [Option.all] at hres
      rcases ht : getCardById m t with _ | top
      · rw [ht] at hres
        simp at hres
      · simp only [ht, hc]

/-- C3 witness: in the demo session the top discard child (card 2) resolves,
and the semantics theorem instantiates at card 0 (face 3 against top face 8,
no match). -/
theorem isMatch_semantics_witness :
    ([2] : List Nat).getLast?.all
      (fun t => (getCardById demoModel t).isSome) = true ∧
    ((isMatch demoModel [2] 0 = some true ↔
      ∃ t top c, ([2] : List Nat).getLast? = some t ∧
        getCardById demoModel t = some top ∧
        getCardById demoModel 0 = some c ∧ (c.face - top.face).natAbs = 1) ∧
     (([2] : List Nat) = [] → isMatch demoModel [2] 0 = some false) ∧
     (getCardById demoModel 0 = none → isMatch demoModel [2] 0 = some false) ∧
     isMatch facesModel [1] 0 = some true ∧
     isMatch facesModel [0] 1 = some true ∧
     isMatch facesModel [3] 2 = some false ∧
     isMatch facesModel [2] 3 = some false) :=
  ⟨by decide, isMatch_semantics demoModel [2] 0 (by decide)⟩

/-- The cards the Playfield loop of `loadData` creates, first id `ctr`. -/
def expectedMain (ctr : Nat) : List LayoutEntry → List CardData
  | [] => []
  | e :: rest =>
      ⟨ctr, e.CardFace, e.CardSuit, "main", e.Position⟩ ::
        expectedMain (ctr + 1) rest

/-- The cards the Stack loop of `loadData` creates, first id `ctr`, current
index `idx`, list length `total`. -/
def expectedStack (ctr idx total : Nat) : List LayoutEntry → List CardData
  | [] => []
  | e :: rest =>
      ⟨ctr, e.CardFace, e.CardSuit,
        if idx = total - 1 then "discard" else "stock", e.Position⟩ ::
        expectedStack (ctr + 1) (idx + 1) total rest

theorem cardsSet_append (cards : List CardData) (c : CardData)
    (h : ∀ x ∈ cards, x.id ≠ c.id) : cardsSet cards c = cards ++ [c] := by
  unfold cardsSet
  rw [if_neg]
  intro habs
  rcases List.any_eq_true.mp habs with ⟨x, hx, hid⟩
  exact h x hx (by simpa using hid)

theorem loadMain_eq (es : List LayoutEntry) :
    ∀ (cards : List CardData) (ctr : Nat), (∀ c ∈ cards, c.id < ctr) →
      loadMain cards ctr es = (cards ++ expectedMain ctr es, ctr + es.length) := by
  induction es with
  | nil =>
      intro cards ctr _
      simp [loadMain, expectedMain]
  | cons e rest ih =>
      intro cards ctr h
      have hset : cardsSet cards ⟨ctr, e.CardFace, e.CardSuit, "main", e.Position⟩ =
          cards ++ [⟨ctr, e.CardFace, e.CardSuit, "main", e.Position⟩] := by
        apply cardsSet_append
        intro x hx
        exact Nat.ne_of_lt (h x hx)
      have hbound : ∀ c ∈ cards ++
          [(⟨ctr, e.CardFace, e.CardSuit, "main", e.Position⟩ : CardData)],
          c.id < ctr + 1 := by
        intro c hc
        rcases List.mem_append.mp hc with hc1 | hc2
        · exact Nat.lt_succ_of_lt (h c hc1)
        · simp at hc2
          subst hc2
          exact Nat.lt_succ_self ctr
      simp only [loadMain]
      rw [hset, ih _ (ctr + 1) hbound]
      simp only [expectedMain, List.append_assoc, List.singleton_append,
        List.length_cons]
      refine Prod.ext rfl ?_
      simp
      omega

theorem loadStack_eq (es : List LayoutEntry) :
    ∀ (cards : List CardData) (ctr idx total : Nat),
      (∀ c ∈ cards, c.id < ctr) →
      loadStack cards ctr idx total es =
        (cards ++ expectedStack ctr idx total es, ctr + es.length) := by
  induction es with
  | nil =>
      intro cards ctr idx total _
      simp [loadStack, expectedStack]
  | cons e rest ih =>
      intro cards ctr idx total h
      have hset : cardsSet cards
          ⟨ctr, e.CardFace, e.CardSuit,
            if idx = total - 1 then "discard" else "stock", e.Position⟩ =
          cards ++ [⟨ctr, e.CardFace, e.CardSuit,
            if idx = total - 1 then "discard" else "stock", e.Position⟩] := by
        apply cardsSet_append
        intro x hx
        exact Nat.ne_of_lt (h x hx)
      have hbound : ∀ c ∈ cards ++
          [(⟨ctr, e.CardFace, e.CardSuit,
              if idx = total - 1 then "discard" else "stock",
              e.Position⟩ : CardData)],
          c.id < ctr + 1 := by
        intro c hc
        rcases List.mem_append.mp hc with hc1 | hc2
        · exact Nat.lt_succ_of_lt (h c hc1)
        · simp at hc2
          subst hc2
          exact Nat.lt_succ_self ctr
      simp only [loadStack]
      rw [hset, ih _ (ctr + 1) (idx + 1) total hbound]
      simp only [expectedStack, List.append_assoc, List.singleton_append,
        List.length_cons]
      refine Prod.ext rfl ?_
      simp
      omega

theorem expectedMain_ids (es : List LayoutEntry) :
    ∀ ctr : Nat, (expectedMain ctr es).map (fun c => c.id) =
      List.range' ctr es.length := by
  induction es with
  | nil => intro ctr; rfl
  | cons e rest ih =>
      intro ctr
      simp only [expectedMain, List.map_cons, List.length_cons,
        List.range'_succ, ih (ctr + 1)]

theorem expectedStack_ids (es : List LayoutEntry) :
    ∀ ctr idx total : Nat,
      (expectedStack ctr idx total es).map (fun c => c.id) =
      List.range' ctr es.length := by
  induction es with
  | nil => intro ctr idx total; rfl
  | cons e rest ih =>
      intro ctr idx total
      simp only [expectedStack, List.map_cons, List.length_cons,
        List.range'_succ, ih (ctr + 1) (idx + 1) total]

theorem expectedMain_id_lt (es : List LayoutEntry) (ctr : Nat) (c : CardData)
    (hc : c ∈ expectedMain ctr es) : c.id < ctr + es.length := by
  have hmem : c.id ∈ (expectedMain ctr es).map (fun c => c.id) :=
    List.mem_map_of_mem _ hc
  rw [expectedMain_ids] at hmem
  exact (List.mem_range'_1.mp hmem).2

theorem expectedMain_getElem (es : List LayoutEntry) :
    ∀ (ctr i : Nat), (expectedMain ctr es)[i]? =
      es[i]?.map fun e =>
        ⟨ctr + i, e.CardFace, e.CardSuit, "main", e.Position⟩ := by
  induction es with
  | nil => intro ctr i; rfl
  | cons e rest ih =>
      intro ctr i
      cases i with
      | zero => simp [expectedMain]
      | succ n =>
          simp only [expectedMain, List.getElem?_cons_succ, ih (ctr + 1) n]
          have harith : ctr + 1 + n = ctr + (n + 1) := by omega
          rw [harith]

theorem expectedStack_getElem (es : List LayoutEntry) :
    ∀ (ctr idx total i : Nat), (expectedStack ctr idx total es)[i]? =
      es[i]?.map fun e =>
        ⟨ctr + i, e.CardFace, e.CardSuit,
          if idx + i = total - 1 then "discard" else "stock", e.Position⟩ := by
  induction es with
  | nil => intro ctr idx total i; rfl
  | cons e rest ih =>
      intro ctr idx total i
      cases i with
      | zero => simp [expectedStack]
      | succ n =>
          simp only [expectedStack, List.getElem?_cons_succ,
            ih (ctr + 1) (idx + 1) total n]
          have h1 : ctr + 1 + n = ctr + (n + 1) := by omega
          have h2 : idx + 1 + n = idx + (n + 1) := by omega
          rw [h1, h2]

theorem expectedMain_length (es : List LayoutEntry) (ctr : Nat) :
    (expectedMain ctr es).length = es.length := by
  have h := congrArg List.length (expectedMain_ids es ctr)
  simpa using h

theorem expectedStack_length (es : List LayoutEntry) (ctr idx total : Nat) :
    (expectedStack ctr idx total es).length = es.length := by
  have h := congrArg List.length (expectedStack_ids es ctr idx total)
  simpa using h

theorem loadFresh_eq (pf st : List LayoutEntry) :
    loadFresh pf st =
      ({ cards := expectedMain 0 pf ++ expectedStack pf.length 0 st.length st,
         history := [] }, true) := by
  have h1 : loadMain ([] : List CardData) 0 pf = (expectedMain 0 pf, pf.length) := by
    have h := loadMain_eq pf [] 0 (by intro c hc; simp at hc)
    simpa using h
  have h2 : loadStack (expectedMain 0 pf) pf.length 0 st.length st =
      (expectedMain 0 pf ++ expectedStack pf.length 0 st.length st,
        pf.length + st.length) := by
    exact loadStack_eq st (expectedMain 0 pf) pf.length 0 st.length
      (fun c hc => by simpa using expectedMain_id_lt pf 0 c hc)
  show (({ cards :=
             (loadStack (loadMain ([] : List CardData) 0 pf).1
               (loadMain ([] : List CardData) 0 pf).2 0 st.length st).1,
           history := [] } : GameModel), true) = _
  rw [h1]
  simp only
  rw [h2]

/-- C1: loading a layout with M main entries and S stack entries (S ≥ 1) into
a fresh model completes, yields exactly M+S cards whose ids are exactly
0,...,M+S-1 in order (no gaps or repeats) — main entries first, then stack
entries, each in input order — where every main entry gets area `"main"`, the
stack entry at the last input index gets `"discard"`, every other stack entry
gets `"stock"`, and every card carries its entry's face, suit and position. -/
theorem load_correctness (pf st : List LayoutEntry) (hst : st ≠ []) :
    (loadFresh pf st).2 = true ∧
    (loadFresh pf st).1.cards.length = pf.length + st.length ∧
    (loadFresh pf st).1.cards.map (fun c => c.id) =
      List.range (pf.length + st.length) ∧
    (∀ i : Nat, ∀ e : LayoutEntry, pf[i]? = some e →
      (loadFresh pf st).1.cards[i]? =
        some ⟨i, e.CardFace, e.CardSuit, "main", e.Position⟩) ∧
    (∀ i : Nat, ∀ e : LayoutEntry, st[i]? = some e →
      (loadFresh pf st).1.cards[pf.length + i]? =
        some ⟨pf.length + i, e.CardFace, e.CardSuit,
          if i = st.length - 1 then "discard" else "stock", e.Position⟩) := by
  rw [loadFresh_eq]
  refine ⟨rfl, ?_, ?_, ?_, ?_⟩
  · simp [List.length_append, expectedMain_length, expectedStack_length]
  · simp only [List.map_append, expectedMain_ids, expectedStack_ids,
      List.range_eq_range']
    have h := List.range'_append 0 pf.length st.length 1
    simp only [Nat.one_mul, Nat.zero_add] at h
    rw [h, Nat.add_comm st.length pf.length]
  · intro i e he
    have hi : i < pf.length := (List.getElem?_eq_some.mp he).1
    rw [List.getElem?_append, if_pos (by rw [expectedMain_length]; exact hi)]
    rw [expectedMain_getElem, he]
    simp
  · intro i e he
    rw [List.getElem?_append_right (by rw [expectedMain_length]; omega)]
    rw [expectedMain_length]
    have hsub : pf.length + i - pf.length = i := by omega
    rw [hsub, expectedStack_getElem, he]
    simp

/-- C1 witness: the demo layout (one main entry, two stack entries) loads into
three cards with ids 0, 1, 2, areas main/stock/discard. -/
theorem load_correctness_witness :
    demoSt ≠ [] ∧
    ((loadFresh demoPf demoSt).2 = true ∧
     (loadFresh demoPf demoSt).1.cards.length = demoPf.length + demoSt.length ∧
     (loadFresh demoPf demoSt).1.cards.map (fun c => c.id) =
       List.range (demoPf.length + demoSt.length) ∧
     (∀ i : Nat, ∀ e : LayoutEntry, demoPf[i]? = some e →
       (loadFresh demoPf demoSt).1.cards[i]? =
         some ⟨i, e.CardFace, e.CardSuit, "main", e.Position⟩) ∧
     (∀ i : Nat, ∀ e : LayoutEntry, demoSt[i]? = some e →
       (loadFresh demoPf demoSt).1.cards[demoPf.length + i]? =
         some ⟨demoPf.length + i, e.CardFace, e.CardSuit,
           if i = demoSt.length - 1 then "discard" else "stock",
           e.Position⟩)) :=
  ⟨by decide, load_correctness demoPf demoSt (by decide)⟩

/-- C8 counterexample: with the main list absent, the embedded `loadData`
reports the raised `TypeError` (`jsonData.Playfield.forEach` on `undefined`):
the completion flag is `false`, refuting that load "does not raise" and
no-ops silently on malformed input. -/
theorem load_malformed_counterexample :
    (loadData emptyModel ⟨none, some [⟨7, 1, ⟨0, 0⟩⟩]⟩).2 = false ∧
    loadData emptyModel ⟨none, some [⟨7, 1, ⟨0, 0⟩⟩]⟩ = (emptyModel, false) :=
  ⟨rfl, rfl⟩

/-- C8 amended: on a layout missing a required list, `loadData` raises a
`TypeError` (completion flag `false`) instead of returning silently; with the
main list absent nothing has been added, and with only the stack list absent
the main entries have already been inserted, leaving a partial ledger. -/
theorem load_malformed_raises (m : GameModel) (st : Option (List LayoutEntry))
    (pf : List LayoutEntry) :
    loadData m ⟨none, st⟩ = (m, false) ∧
    loadData m ⟨some pf, none⟩ =
      ({ m with cards := (loadMain m.cards 0 pf).1 }, false) :=
  ⟨rfl, rfl⟩

/-- A ledger operation issued after load: a move request or an undo request. -/
inductive Op where
  | move (cardId : Nat) (targetArea : String) (targetPos : Vec2)
  | undoReq
deriving DecidableEq, Repr

/-- Apply one operation to the model, keeping only the resulting state. -/
def applyOp (m : GameModel) : Op → GameModel
  | Op.move cardId a p => (moveCard m cardId a p).1
  | Op.undoReq => (undo m).1

/-- Apply a sequence of operations left to right. -/
def applyOps (m : GameModel) : List Op → GameModel
  | [] => m
  | op :: rest => applyOps (applyOp m op) rest

/-- The immutable part of a card: id, face and suit. -/
def cardKey (c : CardData) : Nat × Int × Int := (c.id, c.face, c.suit)

theorem map_cardKey_update (l : List CardData) (i : Nat) (a : String)
    (p : Vec2) :
    ((l.map fun x =>
        if x.id = i then { x with area := a, position := p } else x).map
      cardKey) = l.map cardKey := by
  rw [List.map_map]
  refine List.map_congr_left ?_
  intro x _
  by_cases hx : x.id = i <;> simp [cardKey, hx, Function.comp]

theorem moveCard_cardKey (m : GameModel) (cardId : Nat) (a : String)
    (p : Vec2) :
    (moveCard m cardId a p).1.cards.map cardKey = m.cards.map cardKey := by
  rcases hc : cardsGet m.cards cardId with _ | card
  · unfold moveCard
    rw [hc]
  · unfold moveCard
    rw [hc]
    exact map_cardKey_update m.cards cardId a p

theorem undo_cardKey (m : GameModel) :
    (undo m).1.cards.map cardKey = m.cards.map cardKey := by
  unfold undo
  rcases hh : m.history with _ | ⟨last, rest⟩
  · rfl
  · rcases hc : cardsGet m.cards last.cardId with _ | card
    · simp [hc]
    · simp only [hc]
      exact map_cardKey_update m.cards last.cardId last.oldArea last.oldPos

theorem applyOp_cardKey (m : GameModel) (op : Op) :
    (applyOp m op).cards.map cardKey = m.cards.map cardKey := by
  cases op with
  | move cardId a p => exact moveCard_cardKey m cardId a p
  | undoReq => exact undo_cardKey m

theorem applyOps_cardKey (ops : List Op) :
    ∀ m : GameModel, (applyOps m ops).cards.map cardKey = m.cards.map cardKey := by
  induction ops with
  | nil => intro m; rfl
  | cons op rest ih =>
      intro m
      calc (applyOps (applyOp m op) rest).cards.map cardKey
          = (applyOp m op).cards.map cardKey := ih (applyOp m op)
        _ = m.cards.map cardKey := applyOp_cardKey m op

theorem cardKey_ids (l : List CardData) :
    (l.map cardKey).map (fun k => k.1) = l.map (fun c => c.id) := by
  rw [List.map_map]
  rfl

/-- C9: after any sequence of move and undo operations with any arguments, the
ordered list of (id, face, suit) triples of the ledger's cards is unchanged —
so the set of ids is unchanged, each card keeps its id, face and suit, and only
area and position ever change — and id-uniqueness is preserved. -/
theorem identity_invariant (m : GameModel) (ops : List Op) :
    (applyOps m ops).cards.map cardKey = m.cards.map cardKey ∧
    (NodupIds m → NodupIds (applyOps m ops)) := by
  refine ⟨applyOps_cardKey ops m, fun hnd => ?_⟩
  unfold NodupIds at *
  have hids : (applyOps m ops).cards.map (fun c => c.id) =
      m.cards.map (fun c => c.id) := by
    rw [← cardKey_ids, ← cardKey_ids, applyOps_cardKey ops m]
  rw [hids]
  exact hnd

/-- A concrete operation sequence: two moves (one to a made-up zone, one to
a missing id), an undo on the result, and one more undo. -/
def demoOps : List Op :=
  [Op.move 1 "discard" ⟨0, 0⟩, Op.move 99 "attic" ⟨1, 1⟩, Op.undoReq,
   Op.move 0 "attic" ⟨2, 2⟩, Op.undoReq, Op.undoReq]

/-- C9 witness: the invariant instantiated on the demo session and the
concrete operation sequence, discharging the id-uniqueness hypothesis. -/
theorem identity_invariant_witness :
    ((applyOps demoModel demoOps).cards.map cardKey =
      demoModel.cards.map cardKey ∧
     (NodupIds demoModel → NodupIds (applyOps demoModel demoOps))) ∧
    NodupIds demoModel ∧ NodupIds (applyOps demoModel demoOps) :=
  ⟨identity_invariant demoModel demoOps, by decide,
   (identity_invariant demoModel demoOps).2 (by decide)⟩

/-- One move request of a move/undo sequence. -/
structure MoveReq where
  cardId : Nat
  targetArea : String
  targetPos : Vec2
deriving DecidableEq, Repr

/-- Apply a sequence of `moveCard` calls left to right. -/
def applyMoves (m : GameModel) : List MoveReq → GameModel
  | [] => m
  | r :: rs => applyMoves (moveCard m r.cardId r.targetArea r.targetPos).1 rs

/-- Every `moveCard` call of the sequence returns the success flag. -/
def movesSucceed (m : GameModel) : List MoveReq → Bool
  | [] => true
  | r :: rs =>
      (moveCard m r.cardId r.targetArea r.targetPos).2 &&
        movesSucceed (moveCard m r.cardId r.targetArea r.targetPos).1 rs

/-- Apply `undo` `n` times. -/
def applyUndos (m : GameModel) : Nat → GameModel
  | 0 => m
  | n + 1 => (undo (applyUndos m n)).1

theorem moveCard_ids (m : GameModel) (cardId : Nat) (a : String) (p : Vec2) :
    (moveCard m cardId a p).1.cards.map (fun c => c.id) =
      m.cards.map (fun c => c.id) := by
  rcases hc : cardsGet m.cards cardId with _ | card
  · unfold moveCard
    rw [hc]
  · unfold moveCard
    rw [hc]
    apply map_ids_pres
    intro c
    by_cases hx : c.id = cardId <;> simp [hx]

theorem moveCard_nodup (m : GameModel) (cardId : Nat) (a : String) (p : Vec2)
    (h : NodupIds m) : NodupIds (moveCard m cardId a p).1 := by
  unfold NodupIds at *
  rw [moveCard_ids]
  exact h

theorem undo_moveCard (m : GameModel) (cardId : Nat) (a : String) (p : Vec2)
    (hnd : NodupIds m) (hs : (moveCard m cardId a p).2 = true) :
    (undo (moveCard m cardId a p).1).1 = m := by
  rcases hc : cardsGet m.cards cardId with _ | card
  · unfold moveCard at hs
    rw [hc] at hs
    exact absurd hs (by simp)
  · obtain ⟨cid, cf, cs, ca, ⟨cpx, cpy⟩⟩ := card
    have hid : cid = cardId := cardsGet_id _ _ _ hc
    have hmem : (⟨cid, cf, cs, ca, ⟨cpx, cpy⟩⟩ : CardData) ∈ m.cards :=
      cardsGet_mem _ _ _ hc
    have hmv : moveCard m cardId a p =
        ({ cards := m.cards.map fun x =>
             if x.id = cardId then { x with area := a, position := p } else x,
           history := ⟨cid, ca, ⟨cpx, cpy⟩⟩ :: m.history }, true) := by
      unfold moveCard
      rw [hc]
    rw [hmv]
    have hpres : ∀ x : CardData,
        ((if x.id = cardId then { x with area := a, position := p } else x) :
          CardData).id = x.id := by
      intro x
      by_cases hx : x.id = cardId <;> simp [hx]
    have hget2 : cardsGet
        (m.cards.map fun x =>
          if x.id = cardId then { x with area := a, position := p } else x)
        cid = some ⟨cid, cf, cs, a, p⟩ := by
      rw [hid, cardsGet_map_pres _ hpres, hc]
      simp [hid]
    unfold undo
    simp only [hget2]
    rw [List.map_map]
    have hcongr : ∀ x ∈ m.cards,
        ((fun y : CardData =>
            if y.id = cid then { y with area := ca, position := ⟨cpx, cpy⟩ }
            else y) ∘
          (fun x : CardData =>
            if x.id = cardId then { x with area := a, position := p }
            else x)) x = x := by
      intro x hx
      by_cases hxi : x.id = cardId
      · have hx2 : x = ⟨cid, cf, cs, ca, ⟨cpx, cpy⟩⟩ := by
          apply List.inj_on_of_nodup_map hnd hx hmem
          simp [hxi, hid]
        subst hx2
        simp [Function.comp, hxi, hid]
      · have hxc : ¬x.id = cid := by
          rw [hid]
          exact hxi
        simp [Function.comp, hxi, hxc]
    rw [List.map_congr_left hcongr]
    simp

theorem moves_undos_inverse (rs : List MoveReq) :
    ∀ m : GameModel, NodupIds m → movesSucceed m rs = true →
      applyUndos (applyMoves m rs) rs.length = m := by
  induction rs with
  | nil =>
      intro m _ _
      rfl
  | cons r rest ih =>
      intro m hnd hs
      simp only [movesSucceed, Bool.and_eq_true] at hs
      obtain ⟨hs1, hs2⟩ := hs
      have hnd1 : NodupIds (moveCard m r.cardId r.targetArea r.targetPos).1 :=
        moveCard_nodup m r.cardId r.targetArea r.targetPos hnd
      simp only [applyMoves, List.length_cons, applyUndos]
      rw [ih _ hnd1 hs2]
      exact undo_moveCard m r.cardId r.targetArea r.targetPos hnd hs1

/-- C2: for any ledger state (distinct ids, as a JS Map guarantees) and any
sequence of n successful moves followed by n undos, every card record — in
particular its (zone, position) pair — is exactly its pre-sequence value, and
the history is exactly its pre-sequence stack (empty if it started empty). -/
theorem move_undo_inverse (m : GameModel) (rs : List MoveReq)
    (hnd : NodupIds m) (hs : movesSucceed m rs = true) :
    (∀ i : Nat, cardsGet (applyUndos (applyMoves m rs) rs.length).cards i =
      cardsGet m.cards i) ∧
    (applyUndos (applyMoves m rs) rs.length).history = m.history := by
  have h := moves_undos_inverse rs m hnd hs
  rw [h]
  exact ⟨fun _ => rfl, rfl⟩

/-- A concrete two-move sequence on the demo session. -/
def demoReqs : List MoveReq :=
  [⟨1, "discard", ⟨0, 0⟩⟩, ⟨0, "discard", ⟨3, 3⟩⟩]

/-- C2 witness: two successful moves followed by two undos on the demo session
restore every card and the (initially empty) history. -/
theorem move_undo_inverse_witness :
    NodupIds demoModel ∧ movesSucceed demoModel demoReqs = true ∧
    ((∀ i : Nat,
        cardsGet (applyUndos (applyMoves demoModel demoReqs)
          demoReqs.length).cards i = cardsGet demoModel.cards i) ∧
     (applyUndos (applyMoves demoModel demoReqs) demoReqs.length).history =
       demoModel.history) :=
  ⟨by decide, by decide,
   move_undo_inverse demoModel demoReqs (by decide) (by decide)⟩
